import Mathlib

/-!
# Verification of the SPLICE drum-machine decoder and renderer

Shallow embedding of the Go sources:

* `src/challenge-01/decoder.go` — `newPayloadReader`, `decodePattern`,
  `decodeTracks`, `decodeSingleTrack`, `decodeTrackName`, `decodeSteps`,
  `readBytes`.
* `src/pattern_printout.go` — `Pattern.String` with inline track loop and
  `appendSteps`.
* `src/unnamed/part_000` — `Pattern.String` via `appendTrack` and
  `appendSteps`.

Byte streams are `List Nat` (each element a byte value).  `io.ReadFull` is
modelled by `readFullRaw` / `readFullL`; `io.LimitedReader` by `LReader`
(remaining underlying bytes plus the `N : Int` allowance, Go `int64`).
Errors are an explicit inductive mirroring the `fmt.Errorf` wrapping in the
source: each decoder-level error remembers which field was being parsed and
the underlying short-read kind (`io.EOF` vs `io.ErrUnexpectedEOF`).

The repository file declaring `Pattern`, `Track`, `Steps`,
`maxVersionLength`, `stepsLength`, `cropToString` and `byteToBool` is not
part of the sources; those definitions are modelled from the spec and are
marked as such in their doc comments.
-/

namespace Drum

/-- Outcome of an `io.ReadFull` call on an exhausted or short source:
`io.EOF` when no byte could be read, `io.ErrUnexpectedEOF` when some but
not all requested bytes were read. -/
inductive ReadError where
  | eof
  | unexpectedEOF
  deriving DecidableEq, Repr

/-- Errors returned by the decoder.  Each constructor corresponds to one
error path in `decoder.go`: `ErrUnsupportedFileFormat`, or a field-tagged
wrap (`fmt.Errorf "parse <field>: %v"`) of a short-read error. -/
inductive DecodeError where
  | unsupportedFormat
  | parseTypeHeader (e : ReadError)
  | parsePayloadSize (e : ReadError)
  | parseVersion (e : ReadError)
  | parseTempo (e : ReadError)
  | parseTrackID (e : ReadError)
  | parseTrackNameLength (e : ReadError)
  | parseTrackName (e : ReadError)
  | parseSteps (e : ReadError)
  deriving DecidableEq, Repr

/-- `readBytes` / `io.ReadFull` against a plain byte source (the reader
passed to `newPayloadReader`): reading `n` bytes succeeds exactly when the
source still holds `n` bytes, returning them and the rest; an empty source
gives `io.EOF`, a partially filled read gives `io.ErrUnexpectedEOF`.
A zero-length read succeeds without touching the source. -/
def readFullRaw (input : List Nat) (n : Nat) : Except ReadError (List Nat × List Nat) :=
  if n = 0 then .ok ([], input)
  else if n ≤ input.length then .ok (input.take n, input.drop n)
  else if input.length = 0 then .error .eof
  else .error .unexpectedEOF

/-- `io.LimitedReader` state: the remaining bytes of the underlying reader
and the remaining allowance `N` (Go `int64`, may be negative). -/
structure LReader where
  src : List Nat
  N : Int
  deriving DecidableEq, Repr

/-- Bytes a `LimitedReader` can still yield: bounded both by the allowance
`N` (a non-positive `N` yields nothing) and by the underlying source. -/
def LReader.avail (r : LReader) : Nat := min r.N.toNat r.src.length

/-- `readBytes` / `io.ReadFull` against an `io.LimitedReader`: reading `n`
bytes succeeds exactly when the limited reader can still yield `n` bytes,
consuming them from the source and from the allowance.  Once the reader is
exhausted (allowance or source), a non-empty read fails with `io.EOF`; a
partially satisfiable read fails with `io.ErrUnexpectedEOF`. -/
def readFullL (r : LReader) (n : Nat) : Except ReadError (List Nat × LReader) :=
  if n = 0 then .ok ([], r)
  else if n ≤ r.avail then .ok (r.src.take n, ⟨r.src.drop n, r.N - n⟩)
  else if r.avail = 0 then .error .eof
  else .error .unexpectedEOF

/-- `spliceTypePattern`: the ASCII bytes of `"SPLICE"`. -/
def spliceTypePattern : List Nat := [83, 80, 76, 73, 67, 69]

/-- `typeHeaderLength = uint8(len(spliceTypePattern))`. -/
def typeHeaderLength : Nat := 6

/-- Modelled from the spec: the version field is a fixed 32-byte field
(`maxVersionLength` lives in the repository file that is not among the
sources). -/
def maxVersionLength : Nat := 32

/-- Modelled from the spec: each track's step field is exactly 16 bytes
(`stepsLength` lives in the repository file that is not among the
sources). -/
def stepsLength : Nat := 16

/-- Little-endian byte-list value (used by `binary.Read(..., LittleEndian, ...)`
for the track id and for the tempo's raw 32-bit pattern). -/
def leNat (bs : List Nat) : Nat := bs.foldr (fun b acc => b + 256 * acc) 0

/-- Big-endian byte-list value. -/
def beNat (bs : List Nat) : Nat := bs.foldl (fun acc b => 256 * acc + b) 0

/-- `binary.Read(..., BigEndian, &payloadSize)` for `payloadSize int64`:
the 8 bytes as a big-endian two's-complement signed 64-bit integer. -/
def beInt64 (bs : List Nat) : Int :=
  if beNat bs < 2 ^ 63 then (beNat bs : Int) else (beNat bs : Int) - 2 ^ 64

/-- Modelled from the spec: `Track` (declared in the repository file that is
not among the sources; its fields `id`, `name`, `steps` are those used by
`decoder.go` and the renderers).  The name is kept as its raw bytes; the
steps as the list of 16 booleans. -/
structure Track where
  id : Nat
  name : List Nat
  steps : List Bool
  deriving DecidableEq, Repr

/-- Modelled from the spec: `Pattern` (declared in the repository file that
is not among the sources; its fields `version`, `tempo`, `tracks` are those
used by `decoder.go` and the renderers).  The version is kept as its raw
bytes; the tempo as the raw little-endian 32-bit IEEE-754 pattern. -/
structure Pattern where
  version : List Nat
  tempo : Nat
  tracks : List Track
  deriving DecidableEq, Repr

/-- Modelled from the spec: `cropToString` truncates the version field at
its first zero byte, or keeps it whole when no zero byte is present. -/
def cropToString (bs : List Nat) : List Nat := bs.takeWhile (fun b => b != 0)

/-- Modelled from the spec: `byteToBool` maps byte value 1 to "on" and every
other byte value to "off" (exact equality against 1, not nonzero-is-on),
rejecting no byte value. -/
def byteToBool (b : Nat) : Bool := b == 1

/-- `newPayloadReader`: read and check the 6-byte `"SPLICE"` identifier
(mismatch fails with `ErrUnsupportedFileFormat` before any further read),
then the 8-byte big-endian signed payload size, and wrap the rest of the
source in an `io.LimitedReader` with that allowance. -/
def newPayloadReader (input : List Nat) : Except DecodeError LReader :=
  match readFullRaw input typeHeaderLength with
  | .error e => .error (.parseTypeHeader e)
  | .ok (typeHeader, rest) =>
    if typeHeader = spliceTypePattern then
      match readFullRaw rest 8 with
      | .error e => .error (.parsePayloadSize e)
      | .ok (szb, rest2) => .ok ⟨rest2, beInt64 szb⟩
    else .error .unsupportedFormat

/-- `decodeTrackName`: a 1-byte name length, then exactly that many bytes
of name.  Short reads are tagged with the sub-field being parsed. -/
def decodeTrackName (r : LReader) : Except DecodeError (List Nat × LReader) :=
  match readFullL r 1 with
  | .error e => .error (.parseTrackNameLength e)
  | .ok (lb, r1) =>
    match readFullL r1 (leNat lb) with
    | .error e => .error (.parseTrackName e)
    | .ok (nameb, r2) => .ok (nameb, r2)

/-- `decodeSteps`: exactly 16 bytes, each mapped through `byteToBool`. -/
def decodeSteps (r : LReader) : Except DecodeError (List Bool × LReader) :=
  match readFullL r stepsLength with
  | .error e => .error (.parseSteps e)
  | .ok (bs, r1) => .ok (bs.map byteToBool, r1)

/-- `decodeSingleTrack`: 4-byte little-endian track id, then name, then
steps. -/
def decodeSingleTrack (r : LReader) : Except DecodeError (Track × LReader) :=
  match readFullL r 4 with
  | .error e => .error (.parseTrackID e)
  | .ok (idb, r1) =>
    match decodeTrackName r1 with
    | .error e => .error e
    | .ok (name, r2) =>
      match decodeSteps r2 with
      | .error e => .error e
      | .ok (steps, r3) => .ok (⟨leNat idb, name, steps⟩, r3)

/-- The track loop of `decodeTracks`, with explicit fuel so that the
definition computes by kernel reduction.  Every successful
`decodeSingleTrack` consumes at least one source byte, so any fuel larger
than the source length never runs out (`decodeTracksFuel_congr`); the
fuel-exhaustion branch is unreachable from `decodeTracks`. -/
def decodeTracksFuel : Nat → LReader → Except DecodeError (List Track × LReader)
  | 0, r => .ok ([], r)
  | fuel + 1, r =>
    if 0 < r.N then
      match decodeSingleTrack r with
      | .error e => .error e
      | .ok (t, r') =>
        match decodeTracksFuel fuel r' with
        | .error e => .error e
        | .ok (ts, rf) => .ok (t :: ts, rf)
    else
      .ok ([], r)

/-- `decodeTracks`: repeatedly decode single tracks while the limited
reader's allowance is still positive; the first failure aborts the loop.
(`decodeTracks_eq` below is the loop's defining equation.) -/
def decodeTracks (r : LReader) : Except DecodeError (List Track × LReader) :=
  decodeTracksFuel (r.src.length + 1) r

/-- `decodePattern`: 32-byte version field cropped at the first zero byte,
4-byte little-endian tempo, then tracks until the payload allowance is
exhausted. -/
def decodePattern (r : LReader) : Except DecodeError (Pattern × LReader) :=
  match readFullL r maxVersionLength with
  | .error e => .error (.parseVersion e)
  | .ok (v, r1) =>
    match readFullL r1 4 with
    | .error e => .error (.parseTempo e)
    | .ok (tb, r2) =>
      match decodeTracks r2 with
      | .error e => .error e
      | .ok (tracks, r3) => .ok (⟨cropToString v, leNat tb, tracks⟩, r3)

/-- `decode`: frame the payload, then decode the pattern from it.  The Go
function returns `(*Pattern, error)`; the reader is internal state, so the
model returns the pattern alone. -/
def decode (input : List Nat) : Except DecodeError Pattern :=
  match newPayloadReader input with
  | .error e => .error e
  | .ok p =>
    match decodePattern p with
    | .error e => .error e
    | .ok (patt, _) => .ok patt

/-! ## Rendering

Both renderers write bytes into a `bytes.Buffer`; the model accumulates the
byte list.  `fmt.Fprintf` with `%s` / `%v` on a Go string emits its bytes
verbatim; `%v` on a `uint32` emits its decimal digits. -/

/-- The bytes of an ASCII string literal. -/
def strBytes (s : String) : List Nat := s.data.map Char.toNat

/-- Decimal digits of a natural number, as bytes (Go `%v` on an unsigned
integer). -/
def natRepr (n : Nat) : List Nat := strBytes (Nat.repr n)

/-- Go `fmt` `%v` on a `float32` (shortest round-trip `strconv` formatting),
applied to the raw 32-bit pattern.  Special values (`NaN`, infinities,
signed zero) follow `strconv`.  A finite value that is an exact integer of
magnitude below `2^24` prints as its plain decimal digits: at such
magnitudes the float spacing is at most 1, so the shortest round-trip
decimal is the integer itself and the `%v` format stays positional.  Other
finite values (never produced by the scenarios checked here) are emitted in
an exact `<significand>p<exponent>` form rather than modelling the full
shortest-decimal search. -/
def goFormatFloat32 (bits : Nat) : List Nat :=
  let s : Nat := bits / 2 ^ 31
  let e : Nat := bits / 2 ^ 23 % 2 ^ 8
  let m : Nat := bits % 2 ^ 23
  let sign : List Nat := if s = 1 then strBytes "-" else []
  if e = 255 then
    if m = 0 then (if s = 1 then strBytes "-Inf" else strBytes "+Inf") else strBytes "NaN"
  else
    let significand := if e = 0 then m else 2 ^ 23 + m
    let exp2 : Int := if e = 0 then -149 else (e : Int) - 150
    if significand = 0 then sign ++ strBytes "0"
    else if 0 ≤ exp2 then
      let v := significand * 2 ^ exp2.toNat
      if v < 2 ^ 24 then sign ++ natRepr v
      else sign ++ natRepr significand ++ strBytes "p" ++ natRepr exp2.toNat
    else
      let d := (-exp2).toNat
      if significand % 2 ^ d = 0 ∧ significand / 2 ^ d < 2 ^ 24 then
        sign ++ natRepr (significand / 2 ^ d)
      else
        sign ++ natRepr significand ++ strBytes "p-" ++ natRepr d

namespace Printout

/-- `appendSteps` of `src/pattern_printout.go`, as the bytes the loop
writes: before each step whose index is a multiple of 4 the block
separator `|`, then `x` for an enabled step and `-` for a disabled one,
and one final separator after the loop. -/
def appendStepsAux : Nat → List Bool → List Nat
  | _, [] => [124]
  | i, enabled :: rest =>
    (if i % 4 = 0 then [124] else []) ++
      ((if enabled then 120 else 45) :: appendStepsAux (i + 1) rest)

/-- `appendSteps` starts its index at 0. -/
def appendSteps (s : List Bool) : List Nat := appendStepsAux 0 s

/-- `Pattern.String` of `src/pattern_printout.go`: header line, tempo line,
then for each track `"(id) name\t"`, its steps, and a newline, accumulated
in buffer order. -/
def render (p : Pattern) : List Nat :=
  p.tracks.foldl
    (fun acc t =>
      acc ++ strBytes "(" ++ natRepr t.id ++ strBytes ") " ++ t.name ++ strBytes "\t"
        ++ appendSteps t.steps ++ strBytes "\n")
    (strBytes "Saved with HW Version: " ++ p.version ++ strBytes "\n"
      ++ strBytes "Tempo: " ++ goFormatFloat32 p.tempo ++ strBytes "\n")

end Printout

namespace Unnamed

/-- `appendSteps` of `src/unnamed/part_000` (same loop as the printout
renderer's). -/
def appendStepsAux : Nat → List Bool → List Nat
  | _, [] => [124]
  | i, enabled :: rest =>
    (if i % 4 = 0 then [124] else []) ++
      ((if enabled then 120 else 45) :: appendStepsAux (i + 1) rest)

/-- `appendSteps` starts its index at 0. -/
def appendSteps (s : List Bool) : List Nat := appendStepsAux 0 s

/-- `appendTrack` of `src/unnamed/part_000`: `"(id) name\t"`, the steps,
and a newline. -/
def appendTrack (t : Track) : List Nat :=
  strBytes "(" ++ natRepr t.id ++ strBytes ") " ++ t.name ++ strBytes "\t"
    ++ appendSteps t.steps ++ strBytes "\n"

/-- `Pattern.String` of `src/unnamed/part_000`: header line, tempo line,
then `appendTrack` for each track, accumulated in buffer order. -/
def render (p : Pattern) : List Nat :=
  p.tracks.foldl (fun acc t => acc ++ appendTrack t)
    (strBytes "Saved with HW Version: " ++ p.version ++ strBytes "\n"
      ++ strBytes "Tempo: " ++ goFormatFloat32 p.tempo ++ strBytes "\n")

end Unnamed

/-! ## Statement vocabulary and concrete inputs

Definitions below are used only to state properties (spec-side wording) or
as concrete inputs to theorems; they are not part of the embedding of the
source. -/

/-- The rendered symbol of one step, as §4.3 of the spec words it: `x` for
"on", `-` for "off". -/
def stepSymbol (b : Bool) : Nat := if b then 120 else 45

/-- One track line as the spec describes it: `(id) name\t`, the rendered
steps, and the line break. -/
def trackLineSpec (t : Track) : List Nat :=
  strBytes "(" ++ natRepr t.id ++ strBytes ") " ++ t.name ++ strBytes "\t"
    ++ Printout.appendSteps t.steps ++ strBytes "\n"

/-- The 32-byte version field of the spec's round-trip scenario:
`"0.808-alpha"` zero-padded to 32 bytes. -/
def ver32 : List Nat := strBytes "0.808-alpha" ++ List.replicate 21 0

/-- The track bytes of the spec's round-trip scenario: id `0`, name length
`3`, name `"kck"`, steps `1,0,0,0` four times. -/
def track1 : List Nat :=
  [0, 0, 0, 0] ++ [3] ++ strBytes "kck" ++ [1, 0, 0, 0, 1, 0, 0, 0, 1, 0, 0, 0, 1, 0, 0, 0]

/-- The decoded step grid of the scenario track. -/
def steps16 : List Bool :=
  [true, false, false, false, true, false, false, false,
   true, false, false, false, true, false, false, false]

/-- The spec's round-trip buffer exactly as §8 states it: payload size 36. -/
def buf36 : List Nat :=
  spliceTypePattern ++ [0, 0, 0, 0, 0, 0, 0, 36] ++ ver32 ++ [0, 0, 240, 66] ++ track1

/-- The same buffer with the payload size actually covering the version
field (32), the tempo (4) and the track (24): 60 bytes. -/
def buf60 : List Nat :=
  spliceTypePattern ++ [0, 0, 0, 0, 0, 0, 0, 60] ++ ver32 ++ [0, 0, 240, 66] ++ track1

/-- A well-formed buffer with an empty track section: payload size 36
covers exactly the version field and the tempo. -/
def bufEmptyTracks : List Nat :=
  spliceTypePattern ++ [0, 0, 0, 0, 0, 0, 0, 36] ++ ver32 ++ [0, 0, 240, 66]

/-! ## Supporting lemmas -/

theorem readFullL_ok_cases {r : LReader} {n : Nat} {bs : List Nat} {r' : LReader}
    (h : readFullL r n = .ok (bs, r')) :
    (n = 0 ∧ bs = [] ∧ r' = r) ∨
      (0 < n ∧ n ≤ r.avail ∧ bs = r.src.take n ∧ r' = ⟨r.src.drop n, r.N - (n : Int)⟩) := by
  unfold readFullL at h
  split at h
  next hn =>
    simp only [Except.ok.injEq, Prod.mk.injEq] at h
    exact Or.inl ⟨hn, h.1.symm, h.2.symm⟩
  next hn =>
    split at h
    next hle =>
      simp only [Except.ok.injEq, Prod.mk.injEq] at h
      exact Or.inr ⟨Nat.pos_of_ne_zero hn, hle, h.1.symm, h.2.symm⟩
    next =>
      split at h <;> cases h

theorem readFullL_ok_src_length_le {r : LReader} {n : Nat} {bs : List Nat} {r' : LReader}
    (h : readFullL r n = .ok (bs, r')) : r'.src.length ≤ r.src.length := by
  rcases readFullL_ok_cases h with ⟨-, -, rfl⟩ | ⟨-, -, -, rfl⟩
  · exact le_refl _
  · simp [List.length_drop]

theorem readFullL_ok_pos_src_length_lt {r : LReader} {n : Nat} {bs : List Nat} {r' : LReader}
    (hn : 0 < n) (h : readFullL r n = .ok (bs, r')) : r'.src.length < r.src.length := by
  rcases readFullL_ok_cases h with ⟨h0, -, -⟩ | ⟨-, hle, -, rfl⟩
  · omega
  · have h2 : n ≤ r.src.length := le_trans hle (min_le_right _ _)
    simp only [List.length_drop]
    omega

theorem decodeTrackName_ok_src_length_le {r : LReader} {nm : List Nat} {r' : LReader}
    (h : decodeTrackName r = .ok (nm, r')) : r'.src.length ≤ r.src.length := by
  unfold decodeTrackName at h
  cases h1 : readFullL r 1 with
  | error e => simp only [h1] at h; exact Except.noConfusion h
  | ok v =>
    obtain ⟨lb, r1⟩ := v
    simp only [h1] at h
    cases h2 : readFullL r1 (leNat lb) with
    | error e => simp only [h2] at h; exact Except.noConfusion h
    | ok v2 =>
      obtain ⟨nb, r2⟩ := v2
      simp only [h2, Except.ok.injEq, Prod.mk.injEq] at h
      cases h.2
      exact le_trans (readFullL_ok_src_length_le h2) (readFullL_ok_src_length_le h1)

theorem decodeSteps_ok_src_length_le {r : LReader} {s : List Bool} {r' : LReader}
    (h : decodeSteps r = .ok (s, r')) : r'.src.length ≤ r.src.length := by
  unfold decodeSteps at h
  cases h1 : readFullL r stepsLength with
  | error e => simp only [h1] at h; exact Except.noConfusion h
  | ok v =>
    obtain ⟨bs, r1⟩ := v
    simp only [h1, Except.ok.injEq, Prod.mk.injEq] at h
    cases h.2
    exact readFullL_ok_src_length_le h1

theorem decodeSingleTrack_src_length_lt {r : LReader} {t : Track} {r' : LReader}
    (h : decodeSingleTrack r = .ok (t, r')) : r'.src.length < r.src.length := by
  unfold decodeSingleTrack at h
  cases h1 : readFullL r 4 with
  | error e => simp only [h1] at h; exact Except.noConfusion h
  | ok v =>
    obtain ⟨idb, r1⟩ := v
    simp only [h1] at h
    have hlt1 : r1.src.length < r.src.length := readFullL_ok_pos_src_length_lt (by omega) h1
    cases h2 : decodeTrackName r1 with
    | error e => simp only [h2] at h; exact Except.noConfusion h
    | ok v2 =>
      obtain ⟨name, r2⟩ := v2
      simp only [h2] at h
      cases h5 : decodeSteps r2 with
      | error e => simp only [h5] at h; exact Except.noConfusion h
      | ok v5 =>
        obtain ⟨steps, r3⟩ := v5
        simp only [h5, Except.ok.injEq, Prod.mk.injEq] at h
        cases h.2
        have hle2 := decodeTrackName_ok_src_length_le h2
        have hle3 := decodeSteps_ok_src_length_le h5
        omega

theorem decodeTracksFuel_congr : ∀ (fuel fuel' : Nat) (r : LReader),
    r.src.length < fuel → r.src.length < fuel' →
    decodeTracksFuel fuel r = decodeTracksFuel fuel' r := by
  intro fuel
  induction fuel using Nat.strong_induction_on with
  | _ fuel ih =>
    intro fuel' r h h'
    match fuel, fuel' with
    | f + 1, f' + 1 =>
      simp only [decodeTracksFuel]
      split
      · cases h2 : decodeSingleTrack r with
        | error e => rfl
        | ok v =>
          obtain ⟨t, r'⟩ := v
          have hlt := decodeSingleTrack_src_length_lt h2
          dsimp only
          rw [ih f (Nat.lt_succ_self f) f' r' (by omega) (by omega)]
      · rfl

/-- The `for r.N > 0` loop of `decodeTracks` in `decoder.go`: while the
allowance is positive decode one track and continue; the first failure
aborts; otherwise finish with the tracks collected so far. -/
theorem decodeTracks_eq (r : LReader) :
    decodeTracks r =
      (if 0 < r.N then
        match decodeSingleTrack r with
        | .error e => .error e
        | .ok (t, r') =>
          match decodeTracks r' with
          | .error e => .error e
          | .ok (ts, rf) => .ok (t :: ts, rf)
      else
        .ok ([], r)) := by
  show decodeTracksFuel (r.src.length + 1) r = _
  simp only [decodeTracksFuel]
  split
  · cases h2 : decodeSingleTrack r with
    | error e => rfl
    | ok v =>
      obtain ⟨t, r'⟩ := v
      have hlt := decodeSingleTrack_src_length_lt h2
      dsimp only
      rw [decodeTracksFuel_congr (r.src.length) (r'.src.length + 1) r' (by omega) (by omega)]
      rfl
  · rfl

instance exceptDecEq {ε α : Type} [DecidableEq ε] [DecidableEq α] :
    DecidableEq (Except ε α) := fun a b =>
  match a, b with
  | .error e, .error e' =>
    if h : e = e' then isTrue (by rw [h]) else isFalse (fun hc => h (Except.error.inj hc))
  | .error _, .ok _ => isFalse (fun hc => Except.noConfusion hc)
  | .ok _, .error _ => isFalse (fun hc => Except.noConfusion hc)
  | .ok v, .ok v' =>
    if h : v = v' then isTrue (by rw [h]) else isFalse (fun hc => h (Except.ok.inj hc))

theorem readFullL_ok_shape {r : LReader} {n : Nat} {bs : List Nat} {r' : LReader}
    (h : readFullL r n = .ok (bs, r')) :
    bs = r.src.take n ∧ n ≤ r.src.length ∧ r'.src = r.src.drop n ∧ r'.N = r.N - (n : Int) := by
  rcases readFullL_ok_cases h with ⟨rfl, rfl, rfl⟩ | ⟨-, hle, rfl, rfl⟩
  · simp
  · exact ⟨rfl, le_trans hle (min_le_right _ _), rfl, rfl⟩

theorem readFullL_ok_N_le {r : LReader} {n : Nat} {bs : List Nat} {r' : LReader}
    (hn : 0 < n) (h : readFullL r n = .ok (bs, r')) : (n : Int) ≤ r.N := by
  rcases readFullL_ok_cases h with ⟨h0, -, -⟩ | ⟨-, hle, -, -⟩
  · omega
  · have h1 : n ≤ r.N.toNat := le_trans hle (min_le_left _ _)
    omega

theorem readFullL_eof_of_exhausted {r : LReader} {n : Nat} (hN : r.N ≤ 0) (hn : 0 < n) :
    readFullL r n = .error .eof := by
  have havail : r.avail = 0 := by
    unfold LReader.avail
    have : r.N.toNat = 0 := by omega
    simp [this]
  unfold readFullL
  rw [if_neg (by omega), if_neg (by omega), if_pos havail]

theorem readFullL_error_of_avail_lt {r : LReader} {n : Nat} (h : r.avail < n) :
    ∃ e, readFullL r n = .error e := by
  unfold readFullL
  rw [if_neg (by omega), if_neg (by omega)]
  split
  · exact ⟨_, rfl⟩
  · exact ⟨_, rfl⟩

/-- `r` turns into `r'` by consuming exactly `k` bytes of the payload
window: `k` bytes leave the underlying source and the allowance drops
by `k`. -/
def Consumes (r r' : LReader) (k : Nat) : Prop :=
  k ≤ r.src.length ∧ r'.src = r.src.drop k ∧ r'.N = r.N - (k : Int)

theorem Consumes.trans {r r' r'' : LReader} {k k' : Nat}
    (h : Consumes r r' k) (h' : Consumes r' r'' k') : Consumes r r'' (k + k') := by
  obtain ⟨hk, hsrc, hN⟩ := h
  obtain ⟨hk', hsrc', hN'⟩ := h'
  refine ⟨?_, ?_, ?_⟩
  · rw [hsrc, List.length_drop] at hk'
    omega
  · rw [hsrc', hsrc, List.drop_drop]
  · rw [hN', hN]
    push_cast
    ring

theorem readFullL_ok_consumes {r : LReader} {n : Nat} {bs : List Nat} {r' : LReader}
    (h : readFullL r n = .ok (bs, r')) : Consumes r r' n := by
  obtain ⟨-, h1, h2, h3⟩ := readFullL_ok_shape h
  exact ⟨h1, h2, h3⟩

theorem decodeTrackName_consumes {r : LReader} {nm : List Nat} {r' : LReader}
    (h : decodeTrackName r = .ok (nm, r')) : ∃ k, Consumes r r' k := by
  unfold decodeTrackName at h
  cases h1 : readFullL r 1 with
  | error e => simp only [h1] at h; exact Except.noConfusion h
  | ok v =>
    obtain ⟨lb, r1⟩ := v
    simp only [h1] at h
    cases h2 : readFullL r1 (leNat lb) with
    | error e => simp only [h2] at h; exact Except.noConfusion h
    | ok v2 =>
      obtain ⟨nb, r2⟩ := v2
      simp only [h2, Except.ok.injEq, Prod.mk.injEq] at h
      cases h.2
      exact ⟨_, (readFullL_ok_consumes h1).trans (readFullL_ok_consumes h2)⟩

theorem decodeSteps_consumes {r : LReader} {s : List Bool} {r' : LReader}
    (h : decodeSteps r = .ok (s, r')) : Consumes r r' 16 ∧ 0 ≤ r'.N := by
  unfold decodeSteps at h
  cases h1 : readFullL r stepsLength with
  | error e => simp only [h1] at h; exact Except.noConfusion h
  | ok v =>
    obtain ⟨bs, r1⟩ := v
    simp only [h1, Except.ok.injEq, Prod.mk.injEq] at h
    cases h.2
    have hc := readFullL_ok_consumes h1
    have hle := @readFullL_ok_N_le _ _ _ _ (by norm_num [stepsLength]) h1
    refine ⟨hc, ?_⟩
    have := hc.2.2
    unfold stepsLength at hle this
    omega

theorem decodeSingleTrack_consumes {r : LReader} {t : Track} {r' : LReader}
    (h : decodeSingleTrack r = .ok (t, r')) : (∃ k, Consumes r r' k) ∧ 0 ≤ r'.N := by
  unfold decodeSingleTrack at h
  cases h1 : readFullL r 4 with
  | error e => simp only [h1] at h; exact Except.noConfusion h
  | ok v =>
    obtain ⟨idb, r1⟩ := v
    simp only [h1] at h
    cases h2 : decodeTrackName r1 with
    | error e => simp only [h2] at h; exact Except.noConfusion h
    | ok v2 =>
      obtain ⟨name, r2⟩ := v2
      simp only [h2] at h
      cases h5 : decodeSteps r2 with
      | error e => simp only [h5] at h; exact Except.noConfusion h
      | ok v5 =>
        obtain ⟨steps, r3⟩ := v5
        simp only [h5, Except.ok.injEq, Prod.mk.injEq] at h
        cases h.2
        obtain ⟨k2, hc2⟩ := decodeTrackName_consumes h2
        obtain ⟨hc3, hN3⟩ := decodeSteps_consumes h5
        exact ⟨⟨_, ((readFullL_ok_consumes h1).trans hc2).trans hc3⟩, hN3⟩

theorem decodeTracksFuel_ok_spec : ∀ (fuel : Nat) (r : LReader) (ts : List Track)
    (rf : LReader), r.src.length < fuel → 0 ≤ r.N →
    decodeTracksFuel fuel r = .ok (ts, rf) →
    rf.N = 0 ∨ (rf = r ∧ r.N = 0) := by
  intro fuel
  induction fuel with
  | zero => intro r ts rf h; omega
  | succ f ih =>
    intro r ts rf hlen hN h
    simp only [decodeTracksFuel] at h
    split at h
    · cases h2 : decodeSingleTrack r with
      | error e => simp only [h2] at h; exact Except.noConfusion h
      | ok v =>
        obtain ⟨t, r'⟩ := v
        simp only [h2] at h
        cases h3 : decodeTracksFuel f r' with
        | error e => simp only [h3] at h; exact Except.noConfusion h
        | ok v2 =>
          obtain ⟨ts2, rf2⟩ := v2
          simp only [h3, Except.ok.injEq, Prod.mk.injEq] at h
          obtain ⟨hts, hrf⟩ := h
          have hlt := decodeSingleTrack_src_length_lt h2
          have hN' := (decodeSingleTrack_consumes h2).2
          rcases ih r' ts2 rf2 (by omega) hN' h3 with h4 | ⟨h5, h4⟩
          · left
            rw [← hrf]
            exact h4
          · left
            rw [← hrf, h5]
            exact h4
    · simp only [Except.ok.injEq, Prod.mk.injEq] at h
      cases h.2
      cases h.1
      exact Or.inr ⟨rfl, by omega⟩

theorem decodeTracksFuel_consumes : ∀ (fuel : Nat) (r : LReader) (ts : List Track)
    (rf : LReader), r.src.length < fuel →
    decodeTracksFuel fuel r = .ok (ts, rf) → ∃ k, Consumes r rf k := by
  intro fuel
  induction fuel with
  | zero => intro r ts rf h; omega
  | succ f ih =>
    intro r ts rf hlen h
    simp only [decodeTracksFuel] at h
    split at h
    · cases h2 : decodeSingleTrack r with
      | error e => simp only [h2] at h; exact Except.noConfusion h
      | ok v =>
        obtain ⟨t, r'⟩ := v
        simp only [h2] at h
        cases h3 : decodeTracksFuel f r' with
        | error e => simp only [h3] at h; exact Except.noConfusion h
        | ok v2 =>
          obtain ⟨ts2, rf2⟩ := v2
          simp only [h3, Except.ok.injEq, Prod.mk.injEq] at h
          obtain ⟨hts, hrf⟩ := h
          have hlt := decodeSingleTrack_src_length_lt h2
          obtain ⟨k1, hc1⟩ := (decodeSingleTrack_consumes h2).1
          obtain ⟨k2, hc2⟩ := ih r' ts2 rf2 (by omega) h3
          refine ⟨k1 + k2, ?_⟩
          rw [← hrf]
          exact hc1.trans hc2
    · simp only [Except.ok.injEq, Prod.mk.injEq] at h
      cases h.2
      exact ⟨0, by simp [Consumes]⟩

theorem decodeTracks_ok_spec {r : LReader} {ts : List Track} {rf : LReader}
    (hN : 0 ≤ r.N) (h : decodeTracks r = .ok (ts, rf)) :
    rf.N = 0 ∧ ∃ k, Consumes r rf k := by
  unfold decodeTracks at h
  have h1 := decodeTracksFuel_ok_spec _ r ts rf (Nat.lt_succ_self _) hN h
  have h2 := decodeTracksFuel_consumes _ r ts rf (Nat.lt_succ_self _) h
  rcases h1 with h1 | ⟨rfl, h1⟩
  · exact ⟨h1, h2⟩
  · exact ⟨h1, h2⟩

theorem decodePattern_ok_spec {r : LReader} {p : Pattern} {rf : LReader}
    (h : decodePattern r = .ok (p, rf)) :
    p.version = cropToString (r.src.take 32) ∧ 32 ≤ r.avail ∧
      rf.N = 0 ∧ ∃ k, Consumes r rf k := by
  unfold decodePattern at h
  cases h1 : readFullL r maxVersionLength with
  | error e => simp only [h1] at h; exact Except.noConfusion h
  | ok v =>
    obtain ⟨vb, r1⟩ := v
    simp only [h1] at h
    cases h2 : readFullL r1 4 with
    | error e => simp only [h2] at h; exact Except.noConfusion h
    | ok v2 =>
      obtain ⟨tb, r2⟩ := v2
      simp only [h2] at h
      cases h3 : decodeTracks r2 with
      | error e => simp only [h3] at h; exact Except.noConfusion h
      | ok v3 =>
        obtain ⟨tracks, r3⟩ := v3
        simp only [h3, Except.ok.injEq, Prod.mk.injEq] at h
        cases h.2
        cases h.1
        have hs1 := readFullL_ok_shape h1
        have hs2 := readFullL_ok_shape h2
        have hNle := @readFullL_ok_N_le _ _ _ _ (by norm_num) h2
        have hN2 : 0 ≤ r2.N := by
          have := hs2.2.2.2
          omega
        obtain ⟨hfin, k3, hc3⟩ := decodeTracks_ok_spec hN2 h3
        refine ⟨?_, ?_, hfin, ?_⟩
        · rw [hs1.1]
          rfl
        · rcases readFullL_ok_cases h1 with ⟨h0, -, -⟩ | ⟨-, hle, -, -⟩
          · exact absurd h0 (by norm_num [maxVersionLength])
          · exact hle
        · exact ⟨_, ((readFullL_ok_consumes h1).trans (readFullL_ok_consumes h2)).trans hc3⟩

theorem decode_ok_elim {input : List Nat} {p : Pattern} (h : decode input = .ok p) :
    ∃ r rf, newPayloadReader input = .ok r ∧ decodePattern r = .ok (p, rf) := by
  unfold decode at h
  cases h1 : newPayloadReader input with
  | error e => simp only [h1] at h; exact Except.noConfusion h
  | ok r =>
    simp only [h1] at h
    cases h2 : decodePattern r with
    | error e => simp only [h2] at h; exact Except.noConfusion h
    | ok v =>
      obtain ⟨patt, rf⟩ := v
      simp only [h2, Except.ok.injEq] at h
      cases h
      exact ⟨r, rf, rfl, h2⟩

theorem cropToString_eq_take_indexOf : ∀ bs : List Nat,
    cropToString bs = bs.take (List.indexOf 0 bs) := by
  intro bs
  induction bs with
  | nil => rfl
  | cons b t ih =>
    by_cases hb : b = 0
    · subst hb
      rw [List.indexOf_cons_self]
      rfl
    · rw [List.indexOf_cons_ne t hb]
      unfold cropToString at ih ⊢
      rw [List.take_succ_cons, List.takeWhile_cons]
      simp only [bne_iff_ne, ne_eq, hb, not_false_eq_true, if_true]
      rw [ih]

theorem readFullL_append_ok {pre rest : List Nat} {N : Int}
    (hpos : 0 < pre.length) (hN : (pre.length : Int) ≤ N) :
    readFullL ⟨pre ++ rest, N⟩ pre.length =
      .ok (pre, ⟨rest, N - (pre.length : Int)⟩) := by
  have havail : pre.length ≤ (LReader.mk (pre ++ rest) N).avail := by
    unfold LReader.avail
    simp only [List.length_append]
    have h1 : pre.length ≤ N.toNat := by omega
    omega
  unfold readFullL
  rw [if_neg (by omega), if_pos havail]
  simp only [List.take_left, List.drop_left]

theorem list_len4 {α : Type} (a : List α) (h : a.length = 4) :
    ∃ x0 x1 x2 x3, a = [x0, x1, x2, x3] := by
  rcases a with - | ⟨x0, a⟩
  · simp at h
  rcases a with - | ⟨x1, a⟩
  · simp at h
  rcases a with - | ⟨x2, a⟩
  · simp at h
  rcases a with - | ⟨x3, a⟩
  · simp at h
  rcases a with - | ⟨x4, a⟩
  · exact ⟨x0, x1, x2, x3, rfl⟩
  · simp at h

theorem foldl_acc_append {α : Type} (g : List Nat → α → List Nat) (f : α → List Nat)
    (hg : ∀ acc t, g acc t = acc ++ f t) : ∀ (l : List α) (init : List Nat),
    l.foldl g init = init ++ (l.map f).flatten := by
  intro l
  induction l with
  | nil => intro init; simp
  | cons t ts ih =>
    intro init
    rw [List.foldl_cons, hg, ih, List.map_cons, List.flatten_cons]
    simp [List.append_assoc]

theorem appendStepsAux_unnamed_eq : ∀ (s : List Bool) (i : Nat),
    Printout.appendStepsAux i s = Unnamed.appendStepsAux i s := by
  intro s
  induction s with
  | nil => intro i; rfl
  | cons b t ih =>
    intro i
    unfold Printout.appendStepsAux Unnamed.appendStepsAux
    rw [ih]

theorem trackLineSpec_eq_appendTrack (t : Track) :
    trackLineSpec t = Unnamed.appendTrack t := by
  unfold trackLineSpec Unnamed.appendTrack Printout.appendSteps Unnamed.appendSteps
  rw [appendStepsAux_unnamed_eq]

theorem render_printout_eq_join (p : Pattern) :
    Printout.render p =
      strBytes "Saved with HW Version: " ++ p.version ++ strBytes "\n"
        ++ strBytes "Tempo: " ++ goFormatFloat32 p.tempo ++ strBytes "\n"
        ++ (p.tracks.map trackLineSpec).flatten := by
  unfold Printout.render
  rw [foldl_acc_append _ trackLineSpec (fun acc t => by simp [trackLineSpec, List.append_assoc])]

theorem render_unnamed_eq_join (p : Pattern) :
    Unnamed.render p =
      strBytes "Saved with HW Version: " ++ p.version ++ strBytes "\n"
        ++ strBytes "Tempo: " ++ goFormatFloat32 p.tempo ++ strBytes "\n"
        ++ (p.tracks.map Unnamed.appendTrack).flatten := by
  unfold Unnamed.render
  rw [foldl_acc_append _ Unnamed.appendTrack (fun acc t => rfl)]

theorem count_map_stepSymbol (s : List Bool) :
    List.count 124 (s.map stepSymbol) = 0 := by
  rw [List.count_eq_zero]
  intro hmem
  obtain ⟨x, -, hx⟩ := List.mem_map.mp hmem
  cases x <;> simp [stepSymbol] at hx

theorem readFullL_append_ok_len {pre rest : List Nat} {N : Int} {n : Nat}
    (hn : pre.length = n) (hpos : 0 < n) (hN : (n : Int) ≤ N) :
    readFullL ⟨pre ++ rest, N⟩ n = .ok (pre, ⟨rest, N - (n : Int)⟩) := by
  subst hn
  exact readFullL_append_ok hpos hN

theorem decodePattern_trunc_name {ver tmp idb : List Nat} {L : Nat} {nm : List Nat} {N : Int}
    (hver : ver.length = 32) (htmp : tmp.length = 4) (hidb : idb.length = 4)
    (hLnm : nm.length < L) (hN : 41 + (L : Int) ≤ N) :
    decodePattern ⟨ver ++ (tmp ++ (idb ++ (L :: nm))), N⟩ =
      .error (.parseTrackName (if nm.length = 0 then .eof else .unexpectedEOF)) := by
  have hL1 : 1 ≤ L := by omega
  have hv : readFullL ⟨ver ++ (tmp ++ (idb ++ (L :: nm))), N⟩ maxVersionLength =
      .ok (ver, ⟨tmp ++ (idb ++ (L :: nm)), N - ((32 : Nat) : Int)⟩) :=
    @readFullL_append_ok_len ver (tmp ++ (idb ++ (L :: nm))) N maxVersionLength hver
      (by norm_num [maxVersionLength]) (by simp only [maxVersionLength]; push_cast; omega)
  have ht : readFullL ⟨tmp ++ (idb ++ (L :: nm)), N - ((32 : Nat) : Int)⟩ 4 =
      .ok (tmp, ⟨idb ++ (L :: nm), N - ((32 : Nat) : Int) - ((4 : Nat) : Int)⟩) :=
    readFullL_append_ok_len htmp (by norm_num) (by push_cast; omega)
  have hid : readFullL ⟨idb ++ (L :: nm), N - ((32 : Nat) : Int) - ((4 : Nat) : Int)⟩ 4 =
      .ok (idb, ⟨L :: nm,
        N - ((32 : Nat) : Int) - ((4 : Nat) : Int) - ((4 : Nat) : Int)⟩) :=
    readFullL_append_ok_len hidb (by norm_num) (by push_cast; omega)
  have hlb : readFullL ⟨L :: nm,
      N - ((32 : Nat) : Int) - ((4 : Nat) : Int) - ((4 : Nat) : Int)⟩ 1 =
      .ok ([L], ⟨nm, N - ((32 : Nat) : Int) - ((4 : Nat) : Int) - ((4 : Nat) : Int)
        - ((1 : Nat) : Int)⟩) := by
    have h := @readFullL_append_ok_len [L] nm
      (N - ((32 : Nat) : Int) - ((4 : Nat) : Int) - ((4 : Nat) : Int)) 1
      rfl (by norm_num) (by push_cast; omega)
    rw [List.singleton_append] at h
    exact h
  have hleL : leNat [L] = L := by simp [leNat]
  have hfail : readFullL ⟨nm, N - ((32 : Nat) : Int) - ((4 : Nat) : Int) - ((4 : Nat) : Int)
      - ((1 : Nat) : Int)⟩ L = .error (if nm.length = 0 then .eof else .unexpectedEOF) := by
    have havail : (LReader.mk nm (N - ((32 : Nat) : Int) - ((4 : Nat) : Int)
        - ((4 : Nat) : Int) - ((1 : Nat) : Int))).avail = nm.length := by
      unfold LReader.avail
      have h1 : L ≤ (N - ((32 : Nat) : Int) - ((4 : Nat) : Int) - ((4 : Nat) : Int)
          - ((1 : Nat) : Int)).toNat := by
        push_cast
        omega
      simp only []
      omega
    unfold readFullL
    rw [havail]
    rw [if_neg (by omega), if_neg (by omega)]
    by_cases h0 : nm.length = 0 <;> simp [h0]
  have hname : decodeTrackName ⟨L :: nm,
      N - ((32 : Nat) : Int) - ((4 : Nat) : Int) - ((4 : Nat) : Int)⟩ =
      .error (.parseTrackName (if nm.length = 0 then .eof else .unexpectedEOF)) := by
    unfold decodeTrackName
    rw [hlb]
    dsimp only
    rw [hleL, hfail]
  have hsingle : decodeSingleTrack ⟨idb ++ (L :: nm),
      N - ((32 : Nat) : Int) - ((4 : Nat) : Int)⟩ =
      .error (.parseTrackName (if nm.length = 0 then .eof else .unexpectedEOF)) := by
    unfold decodeSingleTrack
    rw [hid]
    dsimp only
    rw [hname]
  have htracks : decodeTracks ⟨idb ++ (L :: nm),
      N - ((32 : Nat) : Int) - ((4 : Nat) : Int)⟩ =
      .error (.parseTrackName (if nm.length = 0 then .eof else .unexpectedEOF)) := by
    rw [decodeTracks_eq, if_pos (by push_cast; omega), hsingle]
  unfold decodePattern
  rw [hv]
  dsimp only
  rw [ht]
  dsimp only
  rw [htracks]

/-! ## Claims -/

/-- C1: every decoded step grid maps each of its 16 step bytes to "on"
exactly when the byte equals 1 (so 0, 2 and 255 all map to "off"), and
`decodeSteps` never rejects a step byte on grounds of its value: whenever
16 bytes are available it succeeds, whatever those bytes are. -/
theorem decodeSteps_on_iff_byte_one :
    (∀ (r : LReader) (s : List Bool) (r' : LReader), decodeSteps r = .ok (s, r') →
        s = (r.src.take 16).map (fun b => decide (b = 1))) ∧
    (∀ r : LReader, 16 ≤ r.avail → ∃ s r', decodeSteps r = .ok (s, r')) := by
  constructor
  · intro r s r' h
    unfold decodeSteps at h
    cases h1 : readFullL r stepsLength with
    | error e => simp only [h1] at h; exact Except.noConfusion h
    | ok v =>
      obtain ⟨bs, r1⟩ := v
      simp only [h1, Except.ok.injEq, Prod.mk.injEq] at h
      obtain ⟨hs, -⟩ := h
      have hfun : byteToBool = fun b : Nat => decide (b = 1) := by
        funext b
        by_cases hb : b = 1 <;> simp [byteToBool, hb]
      rw [← hs, (readFullL_ok_shape h1).1, hfun]
      rfl
  · intro r hle
    unfold decodeSteps readFullL
    rw [if_neg (show ¬stepsLength = 0 by norm_num [stepsLength]),
      if_pos (show stepsLength ≤ r.avail from hle)]
    exact ⟨_, _, rfl⟩

/-- Witness for C1: a step field holding bytes 1, 0, 2, 255 (among others)
decodes successfully; the theorem applies to it. -/
theorem decodeSteps_on_iff_byte_one_witness :
    16 ≤ (LReader.mk [1, 0, 2, 255, 1, 1, 0, 0, 3, 0, 0, 9, 0, 0, 0, 1] 16).avail ∧
      ∃ s r', decodeSteps (LReader.mk [1, 0, 2, 255, 1, 1, 0, 0, 3, 0, 0, 9, 0, 0, 0, 1] 16) =
        .ok (s, r') :=
  ⟨by decide, decodeSteps_on_iff_byte_one.2 _ (by decide)⟩

/-- C3: any input whose first 6 bytes are not the ASCII literal `"SPLICE"`
makes `decode` fail with the unsupported-format error, whatever follows
those 6 bytes: the result does not depend on (and hence does not
interpret) any byte beyond the identifier. -/
theorem decode_non_splice_unsupported :
    ∀ (hdr rest : List Nat), hdr.length = 6 → hdr ≠ spliceTypePattern →
      decode (hdr ++ rest) = .error .unsupportedFormat := by
  intro hdr rest hlen hne
  have hread : readFullRaw (hdr ++ rest) typeHeaderLength = .ok (hdr, rest) := by
    unfold readFullRaw typeHeaderLength
    rw [if_neg (by omega), if_pos (by rw [List.length_append, hlen]; omega)]
    rw [← hlen, List.take_left, List.drop_left]
  unfold decode newPayloadReader
  rw [hread]
  dsimp only
  rw [if_neg hne]

/-- Witness for C3: a zero identifier followed by extra bytes is rejected
as unsupported. -/
theorem decode_non_splice_unsupported_witness :
    decode ([0, 0, 0, 0, 0, 0] ++ [1, 2, 3]) = .error .unsupportedFormat :=
  decode_non_splice_unsupported [0, 0, 0, 0, 0, 0] [1, 2, 3] (by decide) (by decide)

/-- C5: on every successful pattern decode, the version field is read at
its full 32-byte width (32 bytes must be available), and the version
equals the bytes of that field strictly before its first zero byte — the
whole field verbatim when it has no zero byte (`List.indexOf` returns the
length then).  No byte value in the field can make the read fail. -/
theorem version_crop_at_first_zero :
    ∀ (r : LReader) (p : Pattern) (rf : LReader), decodePattern r = .ok (p, rf) →
      p.version = (r.src.take 32).take (List.indexOf 0 (r.src.take 32)) ∧
        32 ≤ r.avail := by
  intro r p rf h
  obtain ⟨hv, hav, -, -⟩ := decodePattern_ok_spec h
  refine ⟨?_, hav⟩
  rw [hv, cropToString_eq_take_indexOf]

/-- Witness for C5: the scenario's version field (zero-padded
`"0.808-alpha"`) decodes to the bytes before the first zero byte. -/
theorem version_crop_at_first_zero_witness :
    (Pattern.mk (strBytes "0.808-alpha") 1123024896 []).version =
        (((LReader.mk (ver32 ++ [0, 0, 240, 66]) 36).src.take 32).take
          (List.indexOf 0 ((LReader.mk (ver32 ++ [0, 0, 240, 66]) 36).src.take 32))) ∧
      32 ≤ (LReader.mk (ver32 ++ [0, 0, 240, 66]) 36).avail :=
  version_crop_at_first_zero _ _ ⟨[], 0⟩ (by decide)

/-- C9: decoding is deterministic — two decodes of the same byte buffer
that succeed produce structurally equal patterns (same version, same
tempo, same track list). -/
theorem decode_deterministic :
    ∀ (input : List Nat) (p1 p2 : Pattern),
      decode input = .ok p1 → decode input = .ok p2 →
      p1.version = p2.version ∧ p1.tempo = p2.tempo ∧ p1.tracks = p2.tracks := by
  intro input p1 p2 h1 h2
  rw [h1] at h2
  cases Except.ok.inj h2
  exact ⟨rfl, rfl, rfl⟩

/-- Witness for C9: the trackless scenario buffer decodes twice to the
same pattern. -/
theorem decode_deterministic_witness :
    (Pattern.mk (strBytes "0.808-alpha") 1123024896 []).version =
        (Pattern.mk (strBytes "0.808-alpha") 1123024896 []).version ∧
      (Pattern.mk (strBytes "0.808-alpha") 1123024896 []).tempo =
        (Pattern.mk (strBytes "0.808-alpha") 1123024896 []).tempo ∧
      (Pattern.mk (strBytes "0.808-alpha") 1123024896 []).tracks =
        (Pattern.mk (strBytes "0.808-alpha") 1123024896 []).tracks :=
  decode_deterministic bufEmptyTracks _ _ (by decide) (by decide)

/-- C2: payload consumption is byte-exact.  (1) A successful bounded read
returns exactly the requested bytes and never more than the remaining
allowance, decrementing it; (2) once the allowance is exhausted a read
reports end-of-input even when the underlying source still has bytes;
(3) a read exceeding what the bounded reader can yield fails; (4) on every
successful decode the payload window closes at allowance zero, having
consumed exactly the declared payload size of bytes as whole tracks (the
final reader sits exactly `payloadSize` bytes into the window). -/
theorem payload_consumption_byte_exact :
    (∀ (r : LReader) (n : Nat) (bs : List Nat) (r' : LReader),
        readFullL r n = .ok (bs, r') →
        bs.length = n ∧ n ≤ r.N.toNat ∧ r'.N = r.N - (n : Int)) ∧
    (∀ (r : LReader) (n : Nat), r.N ≤ 0 → 0 < n → readFullL r n = .error .eof) ∧
    (∀ (r : LReader) (n : Nat), r.avail < n → ∃ e, readFullL r n = .error e) ∧
    (∀ (input : List Nat) (p : Pattern), decode input = .ok p →
        ∃ r rf, newPayloadReader input = .ok r ∧ decodePattern r = .ok (p, rf) ∧
          rf.N = 0 ∧ 0 ≤ r.N ∧ r.N.toNat ≤ r.src.length ∧
          rf.src = r.src.drop r.N.toNat) := by
  refine ⟨?_, ?_, ?_, ?_⟩
  · intro r n bs r' h
    obtain ⟨hbs, hlen, -, hN⟩ := readFullL_ok_shape h
    refine ⟨by rw [hbs, List.length_take]; omega, ?_, hN⟩
    rcases readFullL_ok_cases h with ⟨h0, -, -⟩ | ⟨-, hle, -, -⟩
    · omega
    · exact le_trans hle (min_le_left _ _)
  · intro r n hN hn
    exact readFullL_eof_of_exhausted hN hn
  · intro r n h
    exact readFullL_error_of_avail_lt h
  · intro input p h
    obtain ⟨r, rf, h1, h2⟩ := decode_ok_elim h
    obtain ⟨-, -, hfin, k, hc⟩ := decodePattern_ok_spec h2
    have hc2 : k ≤ r.src.length ∧ rf.src = r.src.drop k ∧ rf.N = r.N - (k : Int) := hc
    obtain ⟨hk, hsrc, hN⟩ := hc2
    have hkN : (k : Int) = r.N := by omega
    have htN : r.N.toNat = k := by omega
    refine ⟨r, rf, h1, h2, hfin, by omega, by omega, ?_⟩
    rw [htN, hsrc]

/-- Witness for C2: a one-byte read from a two-byte source under allowance
1; a read against an exhausted allowance with bytes still beneath it; a
read exceeding the window; and the full 60-byte scenario buffer, whose
payload window closes exactly at its end. -/
theorem payload_consumption_byte_exact_witness :
    (([7] : List Nat).length = 1 ∧ 1 ≤ (1 : Int).toNat ∧
        (LReader.mk [8] 0).N = (LReader.mk [7, 8] 1).N - ((1 : Nat) : Int)) ∧
      readFullL ⟨[9], 0⟩ 1 = .error .eof ∧
      (∃ e, readFullL ⟨[1, 2], 5⟩ 3 = .error e) ∧
      (∃ r rf, newPayloadReader buf60 = .ok r ∧
        decodePattern r = .ok (Pattern.mk (strBytes "0.808-alpha") 1123024896
          [Track.mk 0 (strBytes "kck") steps16], rf) ∧
        rf.N = 0 ∧ 0 ≤ r.N ∧ r.N.toNat ≤ r.src.length ∧
        rf.src = r.src.drop r.N.toNat) :=
  ⟨payload_consumption_byte_exact.1 ⟨[7, 8], 1⟩ 1 [7] ⟨[8], 0⟩ (by decide),
   payload_consumption_byte_exact.2.1 ⟨[9], 0⟩ 1 (by decide) (by decide),
   payload_consumption_byte_exact.2.2.1 ⟨[1, 2], 5⟩ 3 (by decide),
   payload_consumption_byte_exact.2.2.2 buf60 _ (by decide)⟩

/-- C7: errors are terminal and yield no pattern.  (1) An erroring decode
returns no pattern value at all; (2) inside the track loop the first
failing track decode aborts the loop with that very error — the tracks
already decoded are discarded and no resynchronization occurs; (3) a
successful track decode prepends its track and continues with the rest of
the window, so the output is exactly the uninterrupted prefix of
successes. -/
theorem first_failure_aborts_decode :
    (∀ (input : List Nat) (e : DecodeError), decode input = .error e →
        ∀ p : Pattern, decode input ≠ .ok p) ∧
    (∀ (r : LReader) (e : DecodeError), 0 < r.N → decodeSingleTrack r = .error e →
        decodeTracks r = .error e) ∧
    (∀ (r : LReader) (t : Track) (r' : LReader), 0 < r.N →
        decodeSingleTrack r = .ok (t, r') →
        decodeTracks r = (decodeTracks r').map (fun pr => (t :: pr.1, pr.2))) := by
  refine ⟨?_, ?_, ?_⟩
  · intro input e he p hp
    rw [he] at hp
    exact Except.noConfusion hp
  · intro r e hN h
    rw [decodeTracks_eq r, if_pos hN, h]
  · intro r t r' hN h
    rw [decodeTracks_eq r, if_pos hN, h]
    dsimp only
    cases h3 : decodeTracks r' with
    | error e => rfl
    | ok v =>
      obtain ⟨ts, rf⟩ := v
      rfl

/-- Witness for C7: an empty input errors and yields no pattern; a window
holding allowance but no track bytes aborts with the track-id error; the
scenario track decodes and is prepended to the (empty) rest. -/
theorem first_failure_aborts_decode_witness :
    (∀ p : Pattern, decode [] ≠ .ok p) ∧
      decodeTracks ⟨[], 1⟩ = .error (.parseTrackID .eof) ∧
      decodeTracks ⟨track1, 24⟩ =
        (decodeTracks ⟨[], 0⟩).map
          (fun pr => (Track.mk 0 (strBytes "kck") steps16 :: pr.1, pr.2)) :=
  ⟨first_failure_aborts_decode.1 [] (.parseTypeHeader .eof) (by decide),
   first_failure_aborts_decode.2.1 ⟨[], 1⟩ (.parseTrackID .eof) (by decide) (by decide),
   first_failure_aborts_decode.2.2 ⟨track1, 24⟩ (Track.mk 0 (strBytes "kck") steps16) ⟨[], 0⟩
     (by decide) (by decide)⟩

/-- C4 counterexample: decoding the hand-built buffer exactly as the claim
states it — with payload size 36 — succeeds, but the bounded payload
window closes right after the 32-byte version field and the 4-byte tempo,
so the track bytes are never read: the result holds no track at all, not
the claimed single `"kck"` track, and rendering it produces only the two
header lines. -/
theorem buf36_decodes_without_tracks :
    decode buf36 = .ok (Pattern.mk (strBytes "0.808-alpha") 1123024896 []) ∧
      decode buf36 ≠ .ok (Pattern.mk (strBytes "0.808-alpha") 1123024896
        [Track.mk 0 (strBytes "kck") steps16]) ∧
      Printout.render (Pattern.mk (strBytes "0.808-alpha") 1123024896 []) =
        strBytes "Saved with HW Version: 0.808-alpha\nTempo: 120\n" := by
  refine ⟨by decide, by decide, by decide⟩

/-- C4 amended: with the payload size corrected to 60 — the number of
bytes the version field (32), the tempo (4) and the track (24) actually
occupy — the hand-built buffer decodes to the claimed pattern
(`1123024896` is the little-endian IEEE-754 pattern of 120.0), and
rendering produces exactly the three claimed lines. -/
theorem scenario_payload60_roundtrip :
    decode buf60 = .ok (Pattern.mk (strBytes "0.808-alpha") 1123024896
        [Track.mk 0 (strBytes "kck") steps16]) ∧
      Printout.render (Pattern.mk (strBytes "0.808-alpha") 1123024896
          [Track.mk 0 (strBytes "kck") steps16]) =
        strBytes "Saved with HW Version: 0.808-alpha\nTempo: 120\n(0) kck\t|x---|x---|x---|x---|\n" := by
  refine ⟨by decide, by decide⟩

/-- C6: a stream that ends inside a track name — its identifier, size,
version, tempo, track id and name-length fields are all intact, but fewer
name bytes follow than the declared length, with the payload allowance
large enough not to be the binding constraint — fails with the error
tagged as a track-name parse failure (`parse track name: ...`), not with
an untagged end-of-input error.  The wrapped short-read kind is `io.EOF`
when no name byte was present and `io.ErrUnexpectedEOF` when some were. -/
theorem truncated_track_name_tagged_error :
    ∀ (szb ver tmp idb : List Nat) (L : Nat) (nm : List Nat),
      szb.length = 8 → ver.length = 32 → tmp.length = 4 → idb.length = 4 →
      nm.length < L → 41 + (L : Int) ≤ beInt64 szb →
      decode (spliceTypePattern ++ (szb ++ (ver ++ (tmp ++ (idb ++ (L :: nm)))))) =
        .error (.parseTrackName (if nm.length = 0 then .eof else .unexpectedEOF)) := by
  intro szb ver tmp idb L nm hszb hver htmp hidb hLnm hN
  have h6 : spliceTypePattern.length = 6 := rfl
  have h1 : readFullRaw (spliceTypePattern ++ (szb ++ (ver ++ (tmp ++ (idb ++ (L :: nm))))))
      typeHeaderLength =
      .ok (spliceTypePattern, szb ++ (ver ++ (tmp ++ (idb ++ (L :: nm))))) := by
    have hle6 : 6 ≤ (spliceTypePattern ++ (szb ++ (ver ++ (tmp ++ (idb ++ (L :: nm)))))).length := by
      rw [List.length_append]
      omega
    unfold readFullRaw typeHeaderLength
    rw [if_neg (by omega), if_pos hle6,
      show (6 : Nat) = spliceTypePattern.length from rfl, List.take_left, List.drop_left]
  have h2 : readFullRaw (szb ++ (ver ++ (tmp ++ (idb ++ (L :: nm))))) 8 =
      .ok (szb, ver ++ (tmp ++ (idb ++ (L :: nm)))) := by
    have hle8 : 8 ≤ (szb ++ (ver ++ (tmp ++ (idb ++ (L :: nm))))).length := by
      rw [List.length_append]
      omega
    unfold readFullRaw
    rw [if_neg (by omega), if_pos hle8, ← hszb, List.take_left, List.drop_left]
  have h3 : newPayloadReader
      (spliceTypePattern ++ (szb ++ (ver ++ (tmp ++ (idb ++ (L :: nm)))))) =
      .ok ⟨ver ++ (tmp ++ (idb ++ (L :: nm))), beInt64 szb⟩ := by
    unfold newPayloadReader
    rw [h1]
    dsimp only
    rw [if_pos rfl, h2]
  unfold decode
  rw [h3]
  dsimp only
  rw [decodePattern_trunc_name hver htmp hidb hLnm hN]

/-- Witness for C6: declared name length 5 with only 2 name bytes present
(payload size 50) fails with the track-name-tagged unexpected-EOF error. -/
theorem truncated_track_name_tagged_error_witness :
    decode (spliceTypePattern ++ ([0, 0, 0, 0, 0, 0, 0, 50] ++ (List.replicate 32 7 ++
        ([0, 0, 0, 0] ++ ([1, 0, 0, 0] ++ (5 :: [107, 99])))))) =
      .error (.parseTrackName
        (if ([107, 99] : List Nat).length = 0 then .eof else .unexpectedEOF)) :=
  truncated_track_name_tagged_error [0, 0, 0, 0, 0, 0, 0, 50] (List.replicate 32 7)
    [0, 0, 0, 0] [1, 0, 0, 0] 5 [107, 99]
    (by decide) (by decide) (by decide) (by decide) (by decide) (by decide)

/-- C8: rendering a pattern yields the version title line, then the tempo
line, then exactly one line per track in order, of the form
`(id) name\t` followed by the steps; and rendering 16 steps (four blocks
of four) produces `x` for on and `-` for off in blocks of 4 with a `|`
before each block and one after the last — exactly five `|` characters in
the rendered step grid. -/
theorem render_layout_and_step_blocks :
    (∀ p : Pattern, Printout.render p =
        strBytes "Saved with HW Version: " ++ p.version ++ strBytes "\n"
          ++ strBytes "Tempo: " ++ goFormatFloat32 p.tempo ++ strBytes "\n"
          ++ (p.tracks.map trackLineSpec).flatten) ∧
    (∀ a b c d : List Bool, a.length = 4 → b.length = 4 → c.length = 4 → d.length = 4 →
        Printout.appendSteps (a ++ b ++ c ++ d) =
          [124] ++ a.map stepSymbol ++ [124] ++ b.map stepSymbol ++ [124] ++ c.map stepSymbol
            ++ [124] ++ d.map stepSymbol ++ [124] ∧
        List.count 124 (Printout.appendSteps (a ++ b ++ c ++ d)) = 5) := by
  constructor
  · exact render_printout_eq_join
  · intro a b c d ha hb hc hd
    obtain ⟨a0, a1, a2, a3, rfl⟩ := list_len4 a ha
    obtain ⟨b0, b1, b2, b3, rfl⟩ := list_len4 b hb
    obtain ⟨c0, c1, c2, c3, rfl⟩ := list_len4 c hc
    obtain ⟨d0, d1, d2, d3, rfl⟩ := list_len4 d hd
    have hblocks : Printout.appendSteps
        ([a0, a1, a2, a3] ++ [b0, b1, b2, b3] ++ [c0, c1, c2, c3] ++ [d0, d1, d2, d3]) =
        [124] ++ [a0, a1, a2, a3].map stepSymbol ++ [124] ++ [b0, b1, b2, b3].map stepSymbol
          ++ [124] ++ [c0, c1, c2, c3].map stepSymbol ++ [124] ++ [d0, d1, d2, d3].map stepSymbol
          ++ [124] := rfl
    refine ⟨hblocks, ?_⟩
    rw [hblocks]
    simp only [List.count_append, count_map_stepSymbol]
    rfl

/-- Witness for C8: the scenario's step grid (`x---` four times) renders
with the block structure and exactly five separators. -/
theorem render_layout_and_step_blocks_witness :
    Printout.appendSteps ([true, false, false, false] ++ [true, false, false, false]
        ++ [true, false, false, false] ++ [true, false, false, false]) =
      [124] ++ [true, false, false, false].map stepSymbol ++ [124]
        ++ [true, false, false, false].map stepSymbol ++ [124]
        ++ [true, false, false, false].map stepSymbol ++ [124]
        ++ [true, false, false, false].map stepSymbol ++ [124] ∧
      List.count 124 (Printout.appendSteps ([true, false, false, false]
        ++ [true, false, false, false] ++ [true, false, false, false]
        ++ [true, false, false, false])) = 5 :=
  render_layout_and_step_blocks.2 _ _ _ _ (by decide) (by decide) (by decide) (by decide)

/-- C10: the renderer of `src/pattern_printout.go` and the renderer of
`src/unnamed/part_000` are extensionally equal: they produce identical
output bytes on every pattern. -/
theorem render_printout_eq_render_unnamed :
    ∀ p : Pattern, Printout.render p = Unnamed.render p := by
  intro p
  have hfun : trackLineSpec = Unnamed.appendTrack := funext trackLineSpec_eq_appendTrack
  rw [render_printout_eq_join, render_unnamed_eq_join, hfun]

end Drum
